import Mathlib

/-!
Shallow embedding of the whiteboard storage layer of ovirt-hosted-engine-ha:
the block backend's self-describing info-block format
(`lib/storage_backends.py`), the storage broker's slot read/write and
lockspace-acquisition logic (`broker/storage_broker.py`), the filesystem
backend's file creation, and the client's global-metadata update
(`client/client.py`).  Bytes are modelled as `Nat` values (each written byte
is below 256), byte strings as `List Nat`, and the Python file/device image
as a `List Nat`.
-/

namespace OvirtHA

/-! ### Byte packing (Python `struct`, network byte order) -/

/-- Big-endian base-256 encoding of `n % 256 ^ k` on exactly `k` bytes, as
`struct.pack` produces for `!Q` (`k = 8`) and `!L` (`k = 4`). -/
def packBE : Nat → Nat → List Nat
  | 0, _ => []
  | k + 1, n => packBE k (n / 256) ++ [n % 256]

/-- Big-endian read of a byte list, as `struct.unpack` does. -/
def beU (bs : List Nat) : Nat :=
  bs.foldl (fun a b => a * 256 + b) 0

/-- Python `struct` format `64p`: one length byte (capped at 63) followed by
the string truncated to 63 bytes, zero-padded to 64 bytes total. -/
def packPascal64 (s : List Nat) : List Nat :=
  let t := s.take 63
  t.length :: (t ++ List.replicate (63 - t.length) 0)

/-- Unpacking a `64p` field: read the length byte, return that many bytes
(at most 63). -/
def unpackPascal64 (bs : List Nat) : List Nat :=
  (bs.drop 1).take (min (bs.headD 0) 63)

/-! ### CRC32 (zlib `crc32`, taken `& 0xffffffff`) -/

/-- One shift-xor round of the reflected CRC-32 (IEEE polynomial). -/
def crc32Round (c : Nat) : Nat :=
  if c % 2 = 1 then Nat.xor (c / 2) 0xEDB88320 else c / 2

/-- Fold one byte into the running CRC (eight rounds). -/
def crc32Byte (c b : Nat) : Nat :=
  crc32Round (crc32Round (crc32Round (crc32Round
    (crc32Round (crc32Round (crc32Round (crc32Round (Nat.xor c (b % 256)))))))))

/-- `zlib.crc32(data) & 0xffffffff`: standard CRC-32 as an unsigned
32-bit value. -/
def crc32 (data : List Nat) : Nat :=
  Nat.xor (data.foldl crc32Byte 0xFFFFFFFF) 0xFFFFFFFF % 2 ^ 32

/-! ### `BlockBackend.parse_meta_block` -/

/-- The record `parse_meta_block` returns (`BlockBackend.BlockInfo`). -/
structure BlockInfo where
  next : Nat
  name : List Nat
  pieces : List (Nat × Nat)
  valid : Bool
deriving DecidableEq

/-- The `(start, size)` loop of `parse_meta_block`: read 16-byte pairs until
the `(0, 0)` sentinel, returning the pieces and the number of bytes consumed
(sentinel included).  `none` models the `struct.error` Python raises when
fewer than 16 bytes remain.  The fuel argument only makes the recursion
structural; `parsePieces` below supplies enough fuel that the loop always
either finds the sentinel or runs out of bytes first. -/
def parsePiecesF : Nat → List Nat → Option (List (Nat × Nat) × Nat)
  | 0, _ => none
  | fuel + 1, bs =>
    if bs.length < 16 then none
    else
      let start := beU (bs.take 8)
      let size := beU ((bs.drop 8).take 8)
      if start = 0 ∧ size = 0 then some ([], 16)
      else
        match parsePiecesF fuel (bs.drop 16) with
        | none => none
        | some (ps, c) => some ((start, size) :: ps, c + 16)

/-- The piece loop with sufficient fuel: each iteration consumes 16 bytes,
so `bs.length` iterations can never be exhausted before the buffer is. -/
def parsePieces (bs : List Nat) : Option (List (Nat × Nat) × Nat) :=
  parsePiecesF bs.length bs

/-- `BlockBackend.parse_meta_block`: decode `(next, name)` from the header,
read `(start, size)` pairs until the sentinel, then compare the CRC32 of the
consumed prefix (sentinel included) with the stored 32-bit CRC.  `none`
models a `struct.error` on a buffer too short for a field. -/
def parse_meta_block (block : List Nat) : Option BlockInfo :=
  if block.length < 72 then none
  else
    match parsePieces (block.drop 72) with
    | none => none
    | some (ps, c) =>
      if block.length < 72 + c + 4 then none
      else
        some ⟨beU (block.take 8),
              unpackPascal64 ((block.drop 8).take 64),
              ps,
              crc32 (block.take (72 + c)) == beU ((block.drop (72 + c)).take 4)⟩

/-! ### `BlockBackend.get_services` -/

/-- How a `get_services` walk can fail: a CRC mismatch
(`BlockBackendCorruptedException`) or a malformed/truncated block
(Python `struct.error`). -/
inductive GsError
  | corrupted
  | malformed
deriving DecidableEq

/-- The accumulated `services` dictionary: service name to list of
`(data block start, size)` pieces, in insertion order. -/
abbrev SvcTable := List (List Nat × List (Nat × Nat))

/-- `services.setdefault(name, []); services[name].extend(pieces)`. -/
def svcExtend : SvcTable → List Nat → List (Nat × Nat) → SvcTable
  | [], name, ps => [(name, ps)]
  | (n, q) :: rest, name, ps =>
    if n = name then (n, q ++ ps) :: rest
    else (n, q) :: svcExtend rest name ps

/-- The `while True` loop of `get_services`: read 512 bytes at the current
position, parse, raise on an invalid CRC, extend the table, and follow the
`next` link (a block index from the walk's origin) until it is 0.  One unit
of fuel per read; `none` means the fuel ran out, witnessing that the Python
loop would still be reading.  The source has no bound of its own. -/
def getServicesAux (dev : List Nat) (origin : Nat) :
    Nat → Nat → SvcTable → Option (Except GsError SvcTable)
  | 0, _, _ => none
  | fuel + 1, pos, acc =>
    match parse_meta_block ((dev.drop pos).take 512) with
    | none => some (Except.error GsError.malformed)
    | some info =>
      if info.valid then
        let acc' := svcExtend acc info.name info.pieces
        if info.next = 0 then some (Except.ok acc')
        else getServicesAux dev origin fuel (origin + info.next * 512) acc'
      else some (Except.error GsError.corrupted)

/-- `BlockBackend.get_services` started at the device origin (as `connect`
does), with an explicit read budget. -/
def get_services (dev : List Nat) (fuel : Nat) : Option (Except GsError SvcTable) :=
  getServicesAux dev 0 fuel 0 []

/-! ### `BlockBackend.create_info_blocks` -/

/-- Smallest `k` with `n < 2 ^ (53 + k)` (0 when `n` already fits in the 53
significand bits of a double): the exponent of the unit in the last place of
the double nearest `n`.  The fixed fuel only makes the recursion structural;
1100 halvings suffice for every `n < 2 ^ 1153`, beyond the doubles' range
(Python's `float(n)` raises `OverflowError` past `2 ^ 1024`, and the
theorems' hypotheses keep sizes far below that). -/
def ulpExpGo : Nat → Nat → Nat
  | 0, _ => 0
  | fuel + 1, n => if n < 2 ^ 53 then 0 else ulpExpGo fuel (n / 2) + 1

/-- See `ulpExpGo`. -/
def ulpExp (n : Nat) : Nat := ulpExpGo 1100 n

/-- Round `n` to the nearest IEEE-754 double (53-bit significand, ties to
even), as Python 2's `float(size)` conversion does.  Exact for `n < 2 ^ 53`;
above that the low `ulpExp n` bits are rounded away. -/
def roundDouble (n : Nat) : Nat :=
  let ulp := 2 ^ ulpExp n
  let q := n / ulp
  let r := n % ulp
  if r * 2 < ulp then q * ulp
  else if ulp < r * 2 then (q + 1) * ulp
  else if q % 2 = 0 then q * ulp else (q + 1) * ulp

/-- `bc(size) = int(math.ceil(size / float(512)))`: Python first rounds the
byte count to the nearest double (`float(size)`); dividing a double by 512
only shifts its exponent and `math.ceil` of a double is exact, so the
result is the exact ceiling of `roundDouble size / 512`.  It equals
`ceil(size / 512)` for every `size < 2 ^ 53` but can fall below it beyond
(e.g. `size = 2 ^ 53 + 1` rounds to `2 ^ 53` and yields `2 ^ 44` blocks
rather than `2 ^ 44 + 1`). -/
def bc (size : Nat) : Nat := (roundDouble size + 511) / 512

/-- The byte prefix of one info block before the CRC: header
`pack("!Q64p", next, name)`, one data record `pack("!QQ", start, len)` and
the sentinel `pack("!QQ", 0, 0)`. -/
def infoBody (nxt : Nat) (name : List Nat) (start len : Nat) : List Nat :=
  packBE 8 nxt ++ (packPascal64 name ++
    (packBE 8 start ++ (packBE 8 len ++ (packBE 8 0 ++ packBE 8 0))))

/-- One info block as `create_info_blocks` builds it: the body followed by
`pack("!L", crc32(body))`. -/
def encodeInfoBlock (nxt : Nat) (name : List Nat) (start len : Nat) : List Nat :=
  infoBody nxt name start len ++ packBE 4 (crc32 (infoBody nxt name start len))

/-- The `for next_id, (service, size) in zip(next_links, service_list)` loop:
`idx` is the block's index, `total` the number of services, and `dataStart`
the running first free data block. The next link is `idx + 1` except for the
last block, which links to 0. -/
def cibAux : List (List Nat × Nat) → Nat → Nat → Nat → List (List Nat)
  | [], _, _, _ => []
  | (name, size) :: rest, idx, total, dataStart =>
    encodeInfoBlock (if idx + 1 = total then 0 else idx + 1) name dataStart (bc size) ::
      cibAux rest (idx + 1) total (dataStart + bc size)

/-- `service_list.sort(key=itemgetter(1))`: stable sort by ascending size. -/
def sortBySize (m : List (List Nat × Nat)) : List (List Nat × Nat) :=
  m.mergeSort (fun a b => decide (a.2 ≤ b.2))

/-- `BlockBackend.create_info_blocks`: sort the service map by size, reserve
the first `len(service_map)` blocks for the info table, and emit one
single-piece info block per service with cumulatively assigned data starts. -/
def create_info_blocks (m : List (List Nat × Nat)) : List (List Nat) :=
  cibAux (sortBySize m) 0 m.length m.length

/-- Pad an info block to the 512-byte block size with zero bytes. -/
def pad512 (b : List Nat) : List Nat := b ++ List.replicate (512 - b.length) 0

/-- The device image `BlockBackend.create` writes: block `idx` at byte
offset `idx * 512`, gaps zero-filled. -/
def layout (blocks : List (List Nat)) : List Nat := (blocks.map pad512).flatten

/-- The service table the spec predicts for a sorted service list whose data
area starts at block `ds`: one piece `(ds_i, bc size_i)` per service, data
starts assigned cumulatively. -/
def expTable : List (List Nat × Nat) → Nat → SvcTable
  | [], _ => []
  | (name, size) :: rest, ds => (name, [(ds, bc size)]) :: expTable rest (ds + bc size)

/-- Total number of data blocks a service list needs. -/
def totalBlocks (m : List (List Nat × Nat)) : Nat :=
  (m.map (fun p => bc p.2)).sum

/-! ### `StorageBroker` slot I/O -/

/-- Modelled from the spec: the `env/constants` module is not in the sources;
the spec fixes the per-host slot size at 4096 bytes. -/
def HOST_SEGMENT_BYTES : Nat := 4096

/-- Python `str.ljust(w, fill)`: right-pad to width `w`; a longer string is
returned unchanged. -/
def ljustBytes (s : List Nat) (w fill : Nat) : List Nat :=
  s ++ List.replicate (w - s.length) fill

/-- A single storage write: the byte offset it starts at and the bytes
written. -/
structure WriteAction where
  offset : Nat
  data : List Nat
deriving DecidableEq

/-- The write `StorageBroker.put_stats` performs: seek to
`base_offset + host_id * HOST_SEGMENT_BYTES` and write the payload after
`byte_data.ljust(HOST_SEGMENT_BYTES, chr(0))`.  The source applies no length
check to the payload. -/
def put_stats (baseOffset hostId : Nat) (data : List Nat) : WriteAction :=
  ⟨baseOffset + hostId * HOST_SEGMENT_BYTES, ljustBytes data HOST_SEGMENT_BYTES 0⟩

/-- The dict comprehension closing `get_raw_stats_for_service_type`:
`i` ranges over `0, bs, 2*bs, ... < len(data)`; a chunk is kept under key
`i / bs` when its first byte `data[i]` is nonzero. -/
def get_raw_stats_chunks (bs : Nat) (data : List Nat) : List (Nat × List Nat) :=
  (List.range ((data.length + bs - 1) / bs)).filterMap fun j =>
    if data.getD (j * bs) 0 ≠ 0 then some (j, (data.drop (j * bs)).take bs) else none

/-! ### Broker state machine (lease flag and writes) -/

/-- One slot write together with the value of `_sanlock_acquired` at the
moment the write was issued. -/
structure LoggedWrite where
  write : WriteAction
  leaseHeld : Bool
deriving DecidableEq

/-- The broker state the claims talk about: the `_sanlock_acquired` flag and
the log of slot writes issued so far. -/
structure BrokerState where
  sanlockAcquired : Bool
  writes : List LoggedWrite
deriving DecidableEq

/-- `StorageBroker.__init__`: `self._sanlock_acquired = False`, no writes. -/
def initBroker : BrokerState := ⟨false, []⟩

/-- The broker operations relevant to the lease/write ordering:
`put_stats`, a successful `acquire_whiteboard_lock`, and
`release_whiteboard_lock`. -/
inductive BrokerOp
  | putStats (baseOffset hostId : Nat) (data : List Nat)
  | acquireOk
  | release
deriving DecidableEq

/-- One broker call.  `put_stats` contains no check of `_sanlock_acquired`:
it issues its write in every state.  A successful
`acquire_whiteboard_lock` ends with `self._sanlock_acquired = True`;
`release_whiteboard_lock` clears the flag. -/
def brokerStep (s : BrokerState) : BrokerOp → BrokerState
  | .putStats b h d =>
    { s with writes := s.writes ++ [⟨put_stats b h d, s.sanlockAcquired⟩] }
  | .acquireOk => { s with sanlockAcquired := true }
  | .release => { s with sanlockAcquired := false }

/-- A broker execution: any client-chosen call sequence from the initial
state. -/
def brokerRun (ops : List BrokerOp) : BrokerState :=
  ops.foldl brokerStep initBroker

/-! ### `StorageBroker.acquire_whiteboard_lock` -/

/-- Result of one `sanlock.add_lockspace` call, keyed by errno as the source
distinguishes them. -/
inductive SanlockRes
  | ok
  | eexist
  | einval
  | eintr
  | einprogress
  | enoent
  | other (errno : Nat)
deriving DecidableEq

/-- The errnos the source falls through to a sleep-and-retry on (the
transient ones of the claim). -/
def isTransient : SanlockRes → Bool
  | .eintr => true
  | .einprogress => true
  | .enoent => true
  | _ => false

/-- Observable events of the acquisition loop: an `add_lockspace` call for a
given attempt number, and a `time.sleep(WAIT_FOR_STORAGE_DELAY)`. -/
inductive AcqEvent
  | call (attempt : Nat)
  | sleep
deriving DecidableEq

/-- How the loop ends: `acquired` means control reached
`self._sanlock_acquired = True`; `fatalEinval` is the re-raised `EINVAL`;
`initError` is the `SanlockInitializationError` raised when every attempt
of the `for` loop failed. -/
inductive AcqOutcome
  | acquired
  | fatalEinval
  | initError
deriving DecidableEq

/-- The `for attempt in range(WAIT_FOR_STORAGE_RETRY)` loop: success or
`EEXIST` breaks out (and the flag is then set), `EINVAL` re-raises, and
every other `SanlockException` falls through to a sleep and the next
attempt; the `for`/`else` raises once the budget is exhausted.  `results`
gives the outcome of the `attempt`-th `add_lockspace` call. -/
def acquireAux (results : Nat → SanlockRes) : Nat → Nat → List AcqEvent × AcqOutcome
  | _, 0 => ([], .initError)
  | attempt, remaining + 1 =>
    match results attempt with
    | .ok => ([.call attempt], .acquired)
    | .eexist => ([.call attempt], .acquired)
    | .einval => ([.call attempt], .fatalEinval)
    | _ =>
      let r := acquireAux results (attempt + 1) remaining
      (.call attempt :: .sleep :: r.1, r.2)

/-- `acquire_whiteboard_lock` with a retry budget of `retry`
(`WAIT_FOR_STORAGE_RETRY`; its numeric value lives in a constants module
outside the sources, so it stays a parameter). -/
def acquire_whiteboard_lock (results : Nat → SanlockRes) (retry : Nat) :
    List AcqEvent × AcqOutcome :=
  acquireAux results 0 retry

/-- The event trace of `k` transient failures followed by a success:
`k + 1` calls separated by `k` sleeps. -/
def acqTrace (k : Nat) : List AcqEvent :=
  ((List.range k).map fun i => [AcqEvent.call i, AcqEvent.sleep]).flatten ++
    [AcqEvent.call k]

/-- The event trace of an exhausted budget: `retry` calls, each followed by
a sleep. -/
def acqExhaustTrace (retry : Nat) : List AcqEvent :=
  ((List.range retry).map fun i => [AcqEvent.call i, AcqEvent.sleep]).flatten

/-! ### `FilesystemBackend.create`, file mode -/

/-- A Python 2 value as passed to `file.write`: a byte string or an int. -/
inductive PyVal
  | pystr (s : List Nat)
  | pyint (n : Int)
deriving DecidableEq

/-- A Python 2 file opened for writing: its content and current position. -/
structure PyFile where
  content : List Nat
  pos : Nat
deriving DecidableEq

/-- `f.seek(p)`. -/
def pySeek (f : PyFile) (p : Nat) : PyFile := { f with pos := p }

/-- Python 2 `file.write`: only a string is accepted — writing an `int`
raises `TypeError`.  A write past the end zero-fills the gap (sparse
file). -/
def pyWrite (f : PyFile) : PyVal → Except String PyFile
  | .pyint _ => Except.error "TypeError: expected a character buffer object"
  | .pystr s =>
    Except.ok ⟨f.content.take f.pos ++ List.replicate (f.pos - f.content.length) 0
        ++ s ++ f.content.drop (f.pos + s.length),
      f.pos + s.length⟩

/-- The file-mode branch of `FilesystemBackend.create` for one
`(service, size)` entry: `open(path, "w")` truncates the file; under
`if size:` the code runs `f.seek(size - 1)` and then `f.write(0)` — with the
integer `0`, not a byte. -/
def fsCreateFile (size : Nat) : Except String PyFile :=
  if size ≠ 0 then pyWrite (pySeek ⟨[], 0⟩ (size - 1)) (.pyint 0)
  else Except.ok ⟨[], 0⟩

/-! ### Liveness cache (`is_host_alive` / `push_hosts_state`) -/

/-- The value bound to a service type in `_stats_cache`: either the string
default `""` of `dict.get` or a pushed host-id list. -/
inductive HostsVal
  | pystr (s : List Nat)
  | pylist (l : List Nat)
deriving DecidableEq

/-- `_stats_cache`: service type to `(monotonic timestamp, data)`. -/
abbrev StatsCache := List (String × (Nat × HostsVal))

/-- `dict.get(k)`. -/
def cacheLookup : StatsCache → String → Option (Nat × HostsVal)
  | [], _ => none
  | (k, v) :: rest, svc => if k = svc then some v else cacheLookup rest svc

/-- `dict[k] = v`. -/
def cacheSet : StatsCache → String → Nat × HostsVal → StatsCache
  | [], svc, v => [(svc, v)]
  | (k, w) :: rest, svc, v =>
    if k = svc then (k, v) :: rest else (k, w) :: cacheSet rest svc v

/-- `StorageBroker.is_host_alive`: read the cache with default `(0, "")`;
return the empty list when the entry is older than the timeout, the stored
data otherwise. -/
def is_host_alive (cache : StatsCache) (svc : String) (now timeout : Nat) :
    HostsVal :=
  let tv := (cacheLookup cache svc).getD (0, HostsVal.pystr [])
  if now - tv.1 > timeout then HostsVal.pylist [] else tv.2

/-- `StorageBroker.push_hosts_state`: store `(monotonic_now, data)`. -/
def push_hosts_state (cache : StatsCache) (svc : String) (now : Nat)
    (data : HostsVal) : StatsCache :=
  cacheSet cache svc (now, data)

/-! ### `HAClient.set_global_md_flag` -/

/-- Flag dictionary of the global metadata block (values modelled as
naturals). -/
abbrev FlagMap := List (String × Nat)

/-- `dict[k] = v` for flag maps. -/
def mapInsert : FlagMap → String → Nat → FlagMap
  | [], f, v => [(f, v)]
  | (k, w) :: rest, f, v =>
    if k = f then (k, v) :: rest else (k, w) :: mapInsert rest f v

/-- Modelled from the spec: the `lib/metadata` module is not in the sources.
It supplies `global_flags` (known flag to optional normalization function),
`parse_global_metadata_to_dict` and `create_global_metadata_from_dict`;
the claim only needs them as opaque functions. -/
structure GlobalMdEnv where
  globalFlags : String → Option (Option (Nat → Nat))
  parseGlobal : List Nat → FlagMap
  encodeGlobal : FlagMap → List Nat

/-- The broker call `set_global_md_flag` ends with: target slot and encoded
block. -/
structure PutStatsCall where
  hostId : Nat
  block : List Nat

/-- `HAClient.set_global_md_flag`: reject unknown flags, normalize the value
through the flag's transformation function when there is one, decode slot 0
when it is present and nonempty (else start from `{}`), set the flag, and
write the re-encoded block back to slot 0.  `stats` is the per-slot result
of `get_stats_from_storage`. -/
def set_global_md_flag (env : GlobalMdEnv) (stats : Nat → Option (List Nat))
    (flag : String) (value : Nat) : Except String PutStatsCall :=
  match env.globalFlags flag with
  | none => Except.error ("Unknown metadata flag: " ++ flag)
  | some transformFn =>
    let putVal := match transformFn with
      | some tf => tf value
      | none => value
    let mdDict : FlagMap := match stats 0 with
      | none => []
      | some gs => if gs.length ≠ 0 then env.parseGlobal gs else []
    Except.ok ⟨0, env.encodeGlobal (mapInsert mdDict flag putVal)⟩

/-! ### Concrete devices, traces and environments referenced by the claim theorems -/

/-- A CRC-corrupted info block: the body of a valid block followed by a
stored CRC that provably differs from the body's CRC32. -/
def corruptBlock : List Nat :=
  infoBody 1 [98] 3 1 ++ packBE 4 ((crc32 (infoBody 1 [98] 3 1) + 1) % 2 ^ 32)

/-- The trace of the loop from attempt `attempt` with `k` failures before
the success: `call, sleep` pairs, then the final successful call. -/
def traceFrom : Nat → Nat → List AcqEvent
  | attempt, 0 => [AcqEvent.call attempt]
  | attempt, k + 1 => AcqEvent.call attempt :: AcqEvent.sleep :: traceFrom (attempt + 1) k

/-- The trace of `r` consecutive failed attempts from `attempt`. -/
def exhaustFrom : Nat → Nat → List AcqEvent
  | _, 0 => []
  | attempt, r + 1 => AcqEvent.call attempt :: AcqEvent.sleep :: exhaustFrom (attempt + 1) r

/-- The walk never finishes within any read budget: for every fuel value
`get_services` is still reading. -/
def gsUnbounded (dev : List Nat) : Prop :=
    ∀ fuel, get_services dev fuel = none

/-- A CRC-valid device whose second block's `next` link points back to
itself: block 0 links to block 1 and block 1 links to block 1. -/
def cyclicDevice : List Nat :=
  layout [encodeInfoBlock 1 [97] 2 1, encodeInfoBlock 1 [98] 3 1]

/-- A concrete metadata environment for the C10 witness: one known flag
`"maintenance"` normalized by `min 1` (a stand-in for the usual boolean
normalization), slot contents encoded by flattening the flag map. -/
def c10Env : GlobalMdEnv where
  globalFlags := fun f =>
    if f = "maintenance" then some (some fun v => min v 1) else none
  parseGlobal := fun _ => []
  encodeGlobal := fun fm => fm.map Prod.snd

/-! ## Packing lemmas -/

theorem packBE_length (k n : Nat) : (packBE k n).length = k := by
  induction k generalizing n with
  | zero => simp [packBE]
  | succ k ih => simp [packBE, ih]

theorem beU_packBE (k n : Nat) : beU (packBE k n) = n % 256 ^ k := by
  induction k generalizing n with
  | zero => simp [packBE, beU, Nat.mod_one]
  | succ k ih =>
    have h1 : beU (packBE (k + 1) n)
        = beU (packBE k (n / 256)) * 256 + n % 256 := by
      simp [packBE, beU, List.foldl_append]
    have h2 : (256 : Nat) ^ (k + 1) = 256 * 256 ^ k := by ring
    have h3 : n % (256 * 256 ^ k) = n % 256 + 256 * (n / 256 % 256 ^ k) :=
      Nat.mod_mul
    rw [h1, ih, h2, h3]
    omega

theorem beU_packBE_of_lt {k n : Nat} (h : n < 256 ^ k) : beU (packBE k n) = n := by
  rw [beU_packBE]
  exact Nat.mod_eq_of_lt h

theorem packPascal64_length (s : List Nat) : (packPascal64 s).length = 64 := by
  have h : (s.take 63).length ≤ 63 := by
    simp [List.length_take]
  simp only [packPascal64, List.length_cons, List.length_append,
    List.length_replicate]
  omega

theorem unpackPascal64_packPascal64 {s : List Nat} (h : s.length ≤ 63) :
    unpackPascal64 (packPascal64 s) = s := by
  have ht : s.take 63 = s := List.take_of_length_le h
  simp only [unpackPascal64, packPascal64, ht, List.headD_cons, List.drop_one,
    List.tail_cons, Nat.min_eq_left h]
  exact List.take_left' rfl

theorem crc32_lt (data : List Nat) : crc32 data < 2 ^ 32 :=
  Nat.mod_lt _ (by norm_num)

theorem infoBody_length (nxt : Nat) (name : List Nat) (start len : Nat) :
    (infoBody nxt name start len).length = 104 := by
  simp [infoBody, packBE_length, packPascal64_length]

theorem encodeInfoBlock_length (nxt : Nat) (name : List Nat) (start len : Nat) :
    (encodeInfoBlock nxt name start len).length = 108 := by
  simp [encodeInfoBlock, packBE_length, infoBody_length]

/-! ## Parsing an encoded info block -/

theorem parsePiecesF_sentinel (fuel : Nat) (tail : List Nat) :
    parsePiecesF (fuel + 1) (packBE 8 0 ++ (packBE 8 0 ++ tail))
      = some ([], 16) := by
  have hlen : (packBE 8 0 ++ (packBE 8 0 ++ tail)).length = 16 + tail.length := by
    simp [packBE_length]; omega
  have hguard : ¬ (packBE 8 0 ++ (packBE 8 0 ++ tail)).length < 16 := by omega
  have htake : (packBE 8 0 ++ (packBE 8 0 ++ tail)).take 8 = packBE 8 0 :=
    List.take_left' (packBE_length 8 0)
  have hdrop : (packBE 8 0 ++ (packBE 8 0 ++ tail)).drop 8 = packBE 8 0 ++ tail :=
    List.drop_left' (packBE_length 8 0)
  have htake2 : (packBE 8 0 ++ tail).take 8 = packBE 8 0 :=
    List.take_left' (packBE_length 8 0)
  have hz : beU (packBE 8 0) = 0 := by
    rw [beU_packBE]; simp
  simp only [parsePiecesF, hguard, if_false, htake, hdrop, htake2, hz,
    if_true, and_self, ite_true, if_neg, reduceIte]

theorem parsePieces_piece_sentinel (start len : Nat) (tail : List Nat)
    (hs : start < 2 ^ 64) (hl : len < 2 ^ 64)
    (hsent : ¬(start = 0 ∧ len = 0)) :
    parsePieces (packBE 8 start ++ (packBE 8 len ++
        (packBE 8 0 ++ (packBE 8 0 ++ tail))))
      = some ([(start, len)], 32) := by
  have h88 : (256 : Nat) ^ 8 = 2 ^ 64 := by norm_num
  have hlen : (packBE 8 start ++ (packBE 8 len ++
      (packBE 8 0 ++ (packBE 8 0 ++ tail)))).length = 32 + tail.length := by
    simp [packBE_length]; omega
  have hguard : ¬ (packBE 8 start ++ (packBE 8 len ++
      (packBE 8 0 ++ (packBE 8 0 ++ tail)))).length < 16 := by omega
  have htake : (packBE 8 start ++ (packBE 8 len ++
      (packBE 8 0 ++ (packBE 8 0 ++ tail)))).take 8 = packBE 8 start :=
    List.take_left' (packBE_length 8 start)
  have hdrop : (packBE 8 start ++ (packBE 8 len ++
      (packBE 8 0 ++ (packBE 8 0 ++ tail)))).drop 8
      = packBE 8 len ++ (packBE 8 0 ++ (packBE 8 0 ++ tail)) :=
    List.drop_left' (packBE_length 8 start)
  have htake2 : (packBE 8 len ++ (packBE 8 0 ++ (packBE 8 0 ++ tail))).take 8
      = packBE 8 len := List.take_left' (packBE_length 8 len)
  have hdrop16 : (packBE 8 start ++ (packBE 8 len ++
      (packBE 8 0 ++ (packBE 8 0 ++ tail)))).drop 16
      = packBE 8 0 ++ (packBE 8 0 ++ tail) := by
    have hregroup : packBE 8 start ++ (packBE 8 len ++
        (packBE 8 0 ++ (packBE 8 0 ++ tail)))
        = (packBE 8 start ++ packBE 8 len) ++ (packBE 8 0 ++ (packBE 8 0 ++ tail)) := by
      simp [List.append_assoc]
    rw [hregroup]
    exact List.drop_left' (by simp [packBE_length])
  have hbs : beU (packBE 8 start) = start := beU_packBE_of_lt (h88 ▸ hs)
  have hbl : beU (packBE 8 len) = len := beU_packBE_of_lt (h88 ▸ hl)
  rw [parsePieces, hlen]
  rw [show 32 + tail.length = (31 + tail.length) + 1 by omega]
  rw [parsePiecesF]
  simp only [hguard, if_false, htake, hdrop, htake2, hbs, hbl, hdrop16]
  rw [if_neg hsent]
  rw [show 31 + tail.length = (30 + tail.length) + 1 by omega]
  rw [parsePiecesF_sentinel]

theorem parse_infoBody_stored (nxt : Nat) (name : List Nat) (start len stored : Nat)
    (junk : List Nat) (hname : name.length ≤ 63)
    (hn : nxt < 2 ^ 64) (hs : start < 2 ^ 64) (hl : len < 2 ^ 64)
    (hstored : stored < 2 ^ 32)
    (hsent : ¬(start = 0 ∧ len = 0)) :
    parse_meta_block (infoBody nxt name start len ++ (packBE 4 stored ++ junk))
      = some ⟨nxt, name, [(start, len)],
          crc32 (infoBody nxt name start len) == stored⟩ := by
  have h88 : (256 : Nat) ^ 8 = 2 ^ 64 := by norm_num
  have h84 : (256 : Nat) ^ 4 = 2 ^ 32 := by norm_num
  have hblen : (infoBody nxt name start len ++ (packBE 4 stored ++ junk)).length
      = 108 + junk.length := by
    simp [infoBody_length, packBE_length]
    omega
  have hguard1 : ¬ (infoBody nxt name start len
      ++ (packBE 4 stored ++ junk)).length < 72 := by
    omega
  -- the full block, right-associated
  have hdec : infoBody nxt name start len ++ (packBE 4 stored ++ junk)
      = packBE 8 nxt ++ (packPascal64 name ++ (packBE 8 start ++ (packBE 8 len
        ++ (packBE 8 0 ++ (packBE 8 0 ++ (packBE 4 stored ++ junk)))))) := by
    simp [infoBody, List.append_assoc]
  -- grouped for the drop-72 step
  have hdec72 : infoBody nxt name start len ++ (packBE 4 stored ++ junk)
      = (packBE 8 nxt ++ packPascal64 name) ++ (packBE 8 start ++ (packBE 8 len
        ++ (packBE 8 0 ++ (packBE 8 0 ++ (packBE 4 stored ++ junk))))) := by
    simp [infoBody, List.append_assoc]
  have hdrop72 : (infoBody nxt name start len ++ (packBE 4 stored ++ junk)).drop 72
      = packBE 8 start ++ (packBE 8 len ++ (packBE 8 0 ++ (packBE 8 0
        ++ (packBE 4 stored ++ junk)))) := by
    rw [hdec72]
    exact List.drop_left' (by simp [packBE_length, packPascal64_length])
  have hpp : parsePieces ((infoBody nxt name start len
      ++ (packBE 4 stored ++ junk)).drop 72) = some ([(start, len)], 32) := by
    rw [hdrop72]
    exact parsePieces_piece_sentinel start len _ hs hl hsent
  have hguard2 : ¬ (infoBody nxt name start len
      ++ (packBE 4 stored ++ junk)).length < 72 + 32 + 4 := by omega
  have htake8 : (infoBody nxt name start len ++ (packBE 4 stored ++ junk)).take 8
      = packBE 8 nxt := by
    rw [hdec]; exact List.take_left' (packBE_length 8 nxt)
  have hnext : beU ((infoBody nxt name start len
      ++ (packBE 4 stored ++ junk)).take 8) = nxt := by
    rw [htake8]; exact beU_packBE_of_lt (h88 ▸ hn)
  have hdrop8 : (infoBody nxt name start len ++ (packBE 4 stored ++ junk)).drop 8
      = packPascal64 name ++ (packBE 8 start ++ (packBE 8 len
        ++ (packBE 8 0 ++ (packBE 8 0 ++ (packBE 4 stored ++ junk))))) := by
    rw [hdec]; exact List.drop_left' (packBE_length 8 nxt)
  have hname64 : ((infoBody nxt name start len
      ++ (packBE 4 stored ++ junk)).drop 8).take 64 = packPascal64 name := by
    rw [hdrop8]; exact List.take_left' (packPascal64_length name)
  have hnm : unpackPascal64 (((infoBody nxt name start len
      ++ (packBE 4 stored ++ junk)).drop 8).take 64) = name := by
    rw [hname64]; exact unpackPascal64_packPascal64 hname
  have htake104 : (infoBody nxt name start len
      ++ (packBE 4 stored ++ junk)).take (72 + 32)
      = infoBody nxt name start len :=
    List.take_left' (infoBody_length nxt name start len)
  have hdrop104 : (infoBody nxt name start len
      ++ (packBE 4 stored ++ junk)).drop (72 + 32)
      = packBE 4 stored ++ junk :=
    List.drop_left' (infoBody_length nxt name start len)
  have hexp : beU (((infoBody nxt name start len
      ++ (packBE 4 stored ++ junk)).drop (72 + 32)).take 4) = stored := by
    rw [hdrop104, List.take_left' (packBE_length 4 _)]
    exact beU_packBE_of_lt (h84 ▸ hstored)
  rw [parse_meta_block]
  rw [if_neg hguard1, hpp]
  show (if (infoBody nxt name start len ++ (packBE 4 stored ++ junk)).length
      < 72 + 32 + 4 then none
    else some (BlockInfo.mk
      (beU ((infoBody nxt name start len ++ (packBE 4 stored ++ junk)).take 8))
      (unpackPascal64 (((infoBody nxt name start len
        ++ (packBE 4 stored ++ junk)).drop 8).take 64))
      [(start, len)]
      (crc32 ((infoBody nxt name start len
        ++ (packBE 4 stored ++ junk)).take (72 + 32))
        == beU (((infoBody nxt name start len
          ++ (packBE 4 stored ++ junk)).drop (72 + 32)).take 4))))
    = some (BlockInfo.mk nxt name [(start, len)]
        (crc32 (infoBody nxt name start len) == stored))
  rw [if_neg hguard2]
  rw [hnext, hnm, htake104, hexp]

theorem parse_encodeInfoBlock (nxt : Nat) (name : List Nat) (start len : Nat)
    (junk : List Nat) (hname : name.length ≤ 63)
    (hn : nxt < 2 ^ 64) (hs : start < 2 ^ 64) (hl : len < 2 ^ 64)
    (hsent : ¬(start = 0 ∧ len = 0)) :
    parse_meta_block (encodeInfoBlock nxt name start len ++ junk)
      = some ⟨nxt, name, [(start, len)], true⟩ := by
  have hdec : encodeInfoBlock nxt name start len ++ junk
      = infoBody nxt name start len
        ++ (packBE 4 (crc32 (infoBody nxt name start len)) ++ junk) := by
    simp [encodeInfoBlock, List.append_assoc]
  rw [hdec, parse_infoBody_stored nxt name start len _ junk hname hn hs hl
    (crc32_lt _) hsent]
  simp

/-! ## Device layout lemmas -/

theorem pad512_length {b : List Nat} (h : b.length ≤ 512) :
    (pad512 b).length = 512 := by
  simp [pad512]; omega

theorem layout_cons (b : List Nat) (bs : List (List Nat)) :
    layout (b :: bs) = pad512 b ++ layout bs := by
  simp [layout]

theorem layout_append (A B : List (List Nat)) :
    layout (A ++ B) = layout A ++ layout B := by
  simp [layout]

theorem layout_length {A : List (List Nat)} (h : ∀ b ∈ A, b.length ≤ 512) :
    (layout A).length = 512 * A.length := by
  induction A with
  | nil => simp [layout]
  | cons b bs ih =>
    rw [layout_cons]
    have hb : (pad512 b).length = 512 := pad512_length (h b (by simp))
    have hbs : (layout bs).length = 512 * bs.length :=
      ih fun x hx => h x (by simp [hx])
    simp [hb, hbs, List.length_cons]
    ring

theorem layout_read {A B : List (List Nat)} {b : List Nat}
    (hA : ∀ x ∈ A, x.length ≤ 512) (hb : b.length ≤ 512) :
    ((layout (A ++ b :: B)).drop (512 * A.length)).take 512 = pad512 b := by
  rw [layout_append, List.drop_left' (layout_length hA), layout_cons]
  exact List.take_left' (pad512_length hb)

theorem pad512_encodeInfoBlock (nxt : Nat) (name : List Nat) (start len : Nat) :
    pad512 (encodeInfoBlock nxt name start len)
      = encodeInfoBlock nxt name start len ++ List.replicate 404 0 := by
  rw [pad512, encodeInfoBlock_length]

theorem parse_pad_encode (nxt : Nat) (name : List Nat) (start len : Nat)
    (hname : name.length ≤ 63)
    (hn : nxt < 2 ^ 64) (hs : start < 2 ^ 64) (hl : len < 2 ^ 64)
    (hsent : ¬(start = 0 ∧ len = 0)) :
    parse_meta_block (pad512 (encodeInfoBlock nxt name start len))
      = some ⟨nxt, name, [(start, len)], true⟩ := by
  rw [pad512_encodeInfoBlock]
  exact parse_encodeInfoBlock nxt name start len _ hname hn hs hl hsent

/-! ## Table accumulation lemmas -/

theorem svcExtend_not_mem {acc : SvcTable} {name : List Nat}
    (ps : List (Nat × Nat)) (h : name ∉ acc.map Prod.fst) :
    svcExtend acc name ps = acc ++ [(name, ps)] := by
  induction acc with
  | nil => simp [svcExtend]
  | cons e rest ih =>
    obtain ⟨n, q⟩ := e
    have hne : n ≠ name := by
      intro hc
      exact h (by simp [hc])
    simp only [svcExtend, if_neg hne, List.cons_append, List.cons.injEq, true_and]
    exact ih fun hc => h (by simp at hc ⊢; exact Or.inr hc)

theorem totalBlocks_cons (n : List Nat) (sz : Nat) (r : List (List Nat × Nat)) :
    totalBlocks ((n, sz) :: r) = bc sz + totalBlocks r := by
  simp [totalBlocks]

theorem ulpExpGo_zero_of_lt {fuel n : Nat} (h : n < 2 ^ 53) :
    ulpExpGo fuel n = 0 := by
  cases fuel with
  | zero => rfl
  | succ fuel =>
    show (if n < 2 ^ 53 then 0 else ulpExpGo fuel (n / 2) + 1) = 0
    rw [if_pos h]

theorem ulpExp_zero_of_lt {n : Nat} (h : n < 2 ^ 53) : ulpExp n = 0 :=
  ulpExpGo_zero_of_lt h

theorem pow_ulpExpGo_le (fuel : Nat) :
    ∀ n, 0 < n → 2 ^ ulpExpGo fuel n ≤ n := by
  induction fuel with
  | zero =>
    intro n hn
    show 2 ^ (0 : Nat) ≤ n
    simpa using hn
  | succ fuel ih =>
    intro n hn
    by_cases h : n < 2 ^ 53
    · rw [ulpExpGo_zero_of_lt h]
      simpa using hn
    · have h53 : (2 : Nat) ^ 53 ≤ n := Nat.le_of_not_lt h
      have hh : 0 < n / 2 := by
        have h2 : (2 : Nat) ≤ n := le_trans (by norm_num) h53
        omega
      have hrec := ih (n / 2) hh
      have hstep : ulpExpGo (fuel + 1) n = ulpExpGo fuel (n / 2) + 1 := by
        show (if n < 2 ^ 53 then 0 else ulpExpGo fuel (n / 2) + 1) = _
        rw [if_neg h]
      rw [hstep, pow_succ]
      calc 2 ^ ulpExpGo fuel (n / 2) * 2 ≤ n / 2 * 2 :=
            Nat.mul_le_mul_right 2 hrec
        _ ≤ n := by omega

theorem roundDouble_pos {n : Nat} (h : 0 < n) : 0 < roundDouble n := by
  have hq : 1 ≤ n / 2 ^ ulpExp n := by
    rw [Nat.le_div_iff_mul_le (Nat.pos_pow_of_pos _ (by norm_num))]
    simpa using pow_ulpExpGo_le 1100 n h
  have hulp : 0 < 2 ^ ulpExp n := Nat.pos_pow_of_pos _ (by norm_num)
  rw [roundDouble]
  split
  · exact Nat.mul_pos (by omega) hulp
  · split
    · exact Nat.mul_pos (by omega) hulp
    · split
      · exact Nat.mul_pos (by omega) hulp
      · exact Nat.mul_pos (by omega) hulp

theorem roundDouble_of_lt {n : Nat} (h : n < 2 ^ 53) : roundDouble n = n := by
  rw [roundDouble, ulpExp_zero_of_lt h]
  simp [Nat.mod_one]

theorem bc_small {s : Nat} (h : s < 2 ^ 53) : bc s = (s + 511) / 512 := by
  rw [bc, roundDouble_of_lt h]

theorem bc_pos {size : Nat} (h : 0 < size) : 0 < bc size := by
  have hrd : 0 < roundDouble size := roundDouble_pos h
  have h1 : (1 : Nat) ≤ (roundDouble size + 511) / 512 := by
    rw [Nat.le_div_iff_mul_le (by norm_num : (0:Nat) < 512)]
    omega
  simpa [bc] using h1

/-! ## The chain walk over a created device -/

theorem walk_created (rest : List (List Nat × Nat)) :
    ∀ (pre : List (List Nat)) (acc : SvcTable) (ds total : Nat),
    rest ≠ [] →
    pre.length + rest.length = total →
    (∀ b ∈ pre, b.length ≤ 512) →
    (∀ p ∈ rest, p.1.length ≤ 63) →
    (∀ p ∈ rest, 0 < p.2) →
    (∀ p ∈ rest, p.1 ∉ acc.map Prod.fst) →
    (rest.map Prod.fst).Nodup →
    0 < ds →
    total < 2 ^ 64 →
    ds + totalBlocks rest ≤ 2 ^ 64 →
    getServicesAux (layout (pre ++ cibAux rest pre.length total ds)) 0
        rest.length (512 * pre.length) acc
      = some (Except.ok (acc ++ expTable rest ds)) := by
  induction rest with
  | nil => intro _ _ _ _ hne; exact absurd rfl hne
  | cons hd rest ih =>
    intro pre acc ds total _ hlen hpre hnm hsz hdisj hnodup hds htot hbound
    obtain ⟨name, size⟩ := hd
    simp only [List.length_cons] at hlen
    rw [totalBlocks_cons] at hbound
    have hbcpos : 0 < bc size := bc_pos (hsz (name, size) (by simp))
    have hcib : cibAux ((name, size) :: rest) pre.length total ds
        = encodeInfoBlock (if pre.length + 1 = total then 0 else pre.length + 1)
            name ds (bc size)
          :: cibAux rest (pre.length + 1) total (ds + bc size) := rfl
    have hread : ((layout (pre ++ cibAux ((name, size) :: rest) pre.length total ds)).drop
        (512 * pre.length)).take 512
        = pad512 (encodeInfoBlock (if pre.length + 1 = total then 0 else pre.length + 1)
            name ds (bc size)) := by
      rw [hcib]
      exact layout_read hpre (by rw [encodeInfoBlock_length]; omega)
    have hnxtlt : (if pre.length + 1 = total then 0 else pre.length + 1) < 2 ^ 64 := by
      split
      · positivity
      · omega
    have hdslt : ds < 2 ^ 64 := by omega
    have hbclt : bc size < 2 ^ 64 := by omega
    have hparse : parse_meta_block (((layout
        (pre ++ cibAux ((name, size) :: rest) pre.length total ds)).drop
          (512 * pre.length)).take 512)
        = some ⟨if pre.length + 1 = total then 0 else pre.length + 1,
            name, [(ds, bc size)], true⟩ := by
      rw [hread]
      exact parse_pad_encode _ _ _ _ (hnm (name, size) (by simp)) hnxtlt hdslt hbclt
        (by omega)
    have hext : svcExtend acc name [(ds, bc size)] = acc ++ [(name, [(ds, bc size)])] :=
      svcExtend_not_mem _ (hdisj (name, size) (by simp))
    rw [show ((name, size) :: rest).length = rest.length + 1 from rfl,
      getServicesAux, hparse]
    simp only [if_pos rfl]
    cases rest with
    | nil =>
      have hlast : pre.length + 1 = total := by simpa using hlen
      simp only [hlast, if_pos rfl, hext, expTable, List.append_assoc]
      rfl
    | cons hd2 rest2 =>
      have hnotlast : pre.length + 1 ≠ total := by
        have : (hd2 :: rest2).length ≥ 1 := by simp
        simp only [List.length_cons] at hlen
        omega
      simp only [if_neg hnotlast]
      have hne0 : pre.length + 1 ≠ 0 := by omega
      simp only [if_neg hne0, hext]
      have hcib2 : cibAux ((name, size) :: hd2 :: rest2) pre.length total ds
          = encodeInfoBlock (pre.length + 1) name ds (bc size)
            :: cibAux (hd2 :: rest2) (pre.length + 1) total (ds + bc size) := by
        rw [hcib, if_neg hnotlast]
      have hdev2 : pre ++ cibAux ((name, size) :: hd2 :: rest2) pre.length total ds
          = (pre ++ [encodeInfoBlock (pre.length + 1) name ds (bc size)])
            ++ cibAux (hd2 :: rest2) (pre.length + 1) total (ds + bc size) := by
        rw [hcib2]
        simp [List.append_assoc]
      have hblocks : ∀ b ∈ pre ++ [encodeInfoBlock (pre.length + 1) name ds (bc size)],
          b.length ≤ 512 := by
        intro b hb
        rcases List.mem_append.mp hb with h | h
        · exact hpre b h
        · simp only [List.mem_singleton] at h
          subst h
          rw [encodeInfoBlock_length]
          omega
      have hdisj2 : ∀ p ∈ hd2 :: rest2,
          p.1 ∉ (acc ++ [(name, [(ds, bc size)])]).map Prod.fst := by
        intro p hp
        rw [List.map_append]
        intro hc
        rcases List.mem_append.mp hc with h | h
        · exact hdisj p (List.mem_cons_of_mem _ hp) h
        · simp only [List.map_cons, List.map_nil, List.mem_singleton] at h
          have hn2 : name ∉ (hd2 :: rest2).map Prod.fst := by
            simp only [List.map_cons, List.nodup_cons] at hnodup
            exact hnodup.1
          exact hn2 (h ▸ List.mem_map_of_mem Prod.fst hp)
      have hnodup2 : ((hd2 :: rest2).map Prod.fst).Nodup := by
        simp only [List.map_cons, List.nodup_cons] at hnodup ⊢
        exact ⟨hnodup.2.1, hnodup.2.2⟩
      have hIH := ih (pre ++ [encodeInfoBlock (pre.length + 1) name ds (bc size)])
          (acc ++ [(name, [(ds, bc size)])]) (ds + bc size) total
          (by simp)
          (by simp only [List.length_cons] at hlen
              simp only [List.length_append, List.length_cons, List.length_nil]
              omega)
          hblocks
          (fun p hp => hnm p (List.mem_cons_of_mem _ hp))
          (fun p hp => hsz p (List.mem_cons_of_mem _ hp))
          hdisj2 hnodup2 (by omega) htot (by omega)
      have hlen1 : (pre ++ [encodeInfoBlock (pre.length + 1) name ds (bc size)]).length
          = pre.length + 1 := by simp
      rw [hlen1] at hIH
      rw [hdev2]
      rw [show 0 + (pre.length + 1) * 512 = 512 * (pre.length + 1) by ring]
      rw [hIH]
      simp [expTable, List.append_assoc]

/-! ## Sorting and block-list lemmas -/

theorem parse_encode_nojunk (nxt : Nat) (name : List Nat) (start len : Nat)
    (hname : name.length ≤ 63)
    (hn : nxt < 2 ^ 64) (hs : start < 2 ^ 64) (hl : len < 2 ^ 64)
    (hsent : ¬(start = 0 ∧ len = 0)) :
    parse_meta_block (encodeInfoBlock nxt name start len)
      = some ⟨nxt, name, [(start, len)], true⟩ := by
  have h := parse_encodeInfoBlock nxt name start len [] hname hn hs hl hsent
  simpa using h

theorem sortBySize_perm (m : List (List Nat × Nat)) : (sortBySize m).Perm m :=
  List.mergeSort_perm m _

theorem sortBySize_sorted (m : List (List Nat × Nat)) :
    (sortBySize m).Pairwise (fun a b => a.2 ≤ b.2) := by
  have h := @List.sorted_mergeSort (List Nat × Nat)
    (fun a b => decide (a.2 ≤ b.2))
    (fun a b c h1 h2 => by
      simp only [decide_eq_true_eq] at h1 h2 ⊢
      omega)
    (fun a b => by
      simp only [Bool.or_eq_true, decide_eq_true_eq]
      exact Nat.le_total a.2 b.2)
    m
  exact h.imp fun hab => of_decide_eq_true hab

theorem totalBlocks_sortBySize (m : List (List Nat × Nat)) :
    totalBlocks (sortBySize m) = totalBlocks m := by
  simp only [totalBlocks]
  exact (List.Perm.map (fun p : List Nat × Nat => bc p.2) (sortBySize_perm m)).sum_eq

theorem totalBlocks_pos {m : List (List Nat × Nat)} (hm : m ≠ [])
    (hsz : ∀ p ∈ m, 0 < p.2) : 0 < totalBlocks m := by
  cases m with
  | nil => exact absurd rfl hm
  | cons hd tl =>
    obtain ⟨n, sz⟩ := hd
    rw [totalBlocks_cons]
    have h2 : 0 < bc sz := bc_pos (hsz (n, sz) (by simp))
    omega

theorem cibAux_length (rest : List (List Nat × Nat)) :
    ∀ idx total ds, (cibAux rest idx total ds).length = rest.length := by
  induction rest with
  | nil => intro _ _ _; rfl
  | cons hd tl ih =>
    intro idx total ds
    obtain ⟨n, sz⟩ := hd
    simp [cibAux, ih]

theorem cibAux_parse (rest : List (List Nat × Nat)) :
    ∀ (idx total ds i : Nat) (b : List Nat),
    idx + rest.length = total →
    (∀ p ∈ rest, p.1.length ≤ 63) →
    (∀ p ∈ rest, 0 < p.2) →
    0 < ds →
    total < 2 ^ 64 →
    ds + totalBlocks rest ≤ 2 ^ 64 →
    (cibAux rest idx total ds)[i]? = some b →
    ∃ info, parse_meta_block b = some info ∧ info.valid = true ∧
      info.next = (if idx + i + 1 = total then 0 else idx + i + 1) := by
  induction rest with
  | nil =>
    intro _ _ _ i b _ _ _ _ _ _ h
    simp [cibAux] at h
  | cons hd tl ih =>
    intro idx total ds i b hlen hnm hsz hds htot hbound hget
    obtain ⟨name, size⟩ := hd
    simp only [List.length_cons] at hlen
    rw [totalBlocks_cons] at hbound
    have hbcpos : 0 < bc size := bc_pos (hsz (name, size) (by simp))
    cases i with
    | zero =>
      simp only [cibAux, List.getElem?_cons_zero, Option.some.injEq] at hget
      subst hget
      have hnxtlt : (if idx + 1 = total then 0 else idx + 1) < 2 ^ 64 := by
        split
        · positivity
        · omega
      refine ⟨_, parse_encode_nojunk _ _ _ _ (hnm (name, size) (by simp)) hnxtlt
        (by omega) (by omega) (by omega), rfl, ?_⟩
      simp
    | succ i =>
      simp only [cibAux, List.getElem?_cons_succ] at hget
      have hr := ih (idx + 1) total (ds + bc size) i b (by omega)
        (fun p hp => hnm p (List.mem_cons_of_mem _ hp))
        (fun p hp => hsz p (List.mem_cons_of_mem _ hp))
        (by omega) htot (by omega) hget
      obtain ⟨info, h1, h2, h3⟩ := hr
      refine ⟨info, h1, h2, ?_⟩
      rw [h3, show idx + 1 + i + 1 = idx + (i + 1) + 1 by omega]

/-! ## Claim theorems -/

/-- C1 (amended): for every service map (names at most 63 bytes, positive
sizes, distinct names, data area fitting in 64-bit block numbers), walking
the chain from block 0 of the device written by `create_info_blocks` yields
exactly the map's services, each with the single piece
`(data_start, bc size)` — where `bc size = int(math.ceil(size/float(512)))`
is the float-mediated block count the source computes, equal to
`ceil(size/512)` for every size below `2 ^ 53` (last conjunct) but not
beyond (see the counterexample) — data starts assigned cumulatively from
block `|M|` in ascending-size order, and the parsed next links running
`1, 2, ..., |M| - 1, 0`. -/
theorem spec_c1 (m : List (List Nat × Nat))
    (hm : m ≠ [])
    (hnm : ∀ p ∈ m, p.1.length ≤ 63)
    (hsz : ∀ p ∈ m, 0 < p.2)
    (hnd : (m.map Prod.fst).Nodup)
    (hbound : m.length + totalBlocks m ≤ 2 ^ 64) :
    get_services (layout (create_info_blocks m)) m.length
        = some (Except.ok (expTable (sortBySize m) m.length))
      ∧ (sortBySize m).Perm m
      ∧ (sortBySize m).Pairwise (fun a b => a.2 ≤ b.2)
      ∧ (create_info_blocks m).length = m.length
      ∧ (∀ i b, (create_info_blocks m)[i]? = some b →
          ∃ info, parse_meta_block b = some info ∧ info.valid = true ∧
            info.next = (if i + 1 = m.length then 0 else i + 1))
      ∧ (∀ s, s < 2 ^ 53 → bc s = (s + 511) / 512) := by
  have hperm := sortBySize_perm m
  have hslen : (sortBySize m).length = m.length := hperm.length_eq
  have hmpos : 0 < m.length := List.length_pos.mpr hm
  have hsne : sortBySize m ≠ [] := by
    intro hc
    rw [hc] at hslen
    simp at hslen
    omega
  have hsnm : ∀ p ∈ sortBySize m, p.1.length ≤ 63 :=
    fun p hp => hnm p (hperm.mem_iff.mp hp)
  have hssz : ∀ p ∈ sortBySize m, 0 < p.2 :=
    fun p hp => hsz p (hperm.mem_iff.mp hp)
  have hsnd : ((sortBySize m).map Prod.fst).Nodup :=
    ((hperm.map Prod.fst).nodup_iff).mpr hnd
  have htbs : totalBlocks (sortBySize m) = totalBlocks m := totalBlocks_sortBySize m
  have htbpos : 0 < totalBlocks m := totalBlocks_pos hm hsz
  have htot : m.length < 2 ^ 64 := by omega
  have hwalk := walk_created (sortBySize m) [] [] m.length m.length
    hsne (by simpa using hslen) (by simp) hsnm hssz (by simp) hsnd
    hmpos htot (by omega)
  refine ⟨?_, hperm, sortBySize_sorted m, ?_, ?_, fun s hs => bc_small hs⟩
  · rw [get_services, create_info_blocks]
    have h0 : (512 : Nat) * ([] : List (List Nat)).length = 0 := by simp
    rw [show (0 : Nat) = 512 * ([] : List (List Nat)).length by simp] at *
    simpa [hslen] using hwalk
  · rw [create_info_blocks, cibAux_length, hslen]
  · intro i b hget
    have h := cibAux_parse (sortBySize m) 0 m.length m.length i b
      (by simpa using hslen) hsnm hssz hmpos htot (by omega) hget
    simpa using h

theorem spec_c1_witness :
    ([([97], 300), ([98], 512), ([99], 52428800)] : List (List Nat × Nat)) ≠ []
    ∧ (get_services (layout (create_info_blocks
          [([97], 300), ([98], 512), ([99], 52428800)])) 3
        = some (Except.ok (expTable (sortBySize
            [([97], 300), ([98], 512), ([99], 52428800)]) 3))
      ∧ (sortBySize [([97], 300), ([98], 512), ([99], 52428800)]).Perm
          [([97], 300), ([98], 512), ([99], 52428800)]
      ∧ (sortBySize [([97], 300), ([98], 512), ([99], 52428800)]).Pairwise
          (fun a b => a.2 ≤ b.2)
      ∧ (create_info_blocks [([97], 300), ([98], 512), ([99], 52428800)]).length = 3
      ∧ (∀ i b, (create_info_blocks
            [([97], 300), ([98], 512), ([99], 52428800)])[i]? = some b →
          ∃ info, parse_meta_block b = some info ∧ info.valid = true ∧
            info.next = (if i + 1 = 3 then 0 else i + 1))
      ∧ (∀ s, s < 2 ^ 53 → bc s = (s + 511) / 512)) :=
  ⟨by decide,
   spec_c1 [([97], 300), ([98], 512), ([99], 52428800)]
     (by decide) (by decide) (by decide) (by decide) (by decide)⟩

/-- C1 counterexample: the block count is computed through a 64-bit float
(`int(math.ceil(size / float(512)))`), and at `size = 2 ^ 53 + 1` the
conversion `float(size)` rounds to `2 ^ 53`, so the created device carries
the piece `(1, 2 ^ 44)` where the claim's `ceil(size/512)` demands
`2 ^ 44 + 1` — the claim as stated fails at the service map
`{"a": 2 ^ 53 + 1}`. -/
theorem spec_c1_counterexample :
    get_services (layout (create_info_blocks [([97], 2 ^ 53 + 1)])) 1
      = some (Except.ok [([97], [(1, 2 ^ 44)])])
    ∧ (2 ^ 53 + 1 + 511) / 512 = 2 ^ 44 + 1
    ∧ (2 ^ 44 : Nat) ≠ 2 ^ 44 + 1 := by
  refine ⟨?_, by decide, by decide⟩
  have hbc : bc (2 ^ 53 + 1) = 2 ^ 44 := by decide
  have hsort : sortBySize [([97], 2 ^ 53 + 1)] = [([97], 2 ^ 53 + 1)] :=
    List.perm_singleton.mp (sortBySize_perm _)
  have hwalk := walk_created [([97], 2 ^ 53 + 1)] [] [] 1 1
    (by simp) (by simp) (by simp)
    (by decide) (by decide) (by simp) (by decide)
    (by decide) (by decide) (by decide)
  rw [get_services, create_info_blocks]
  rw [show (0 : Nat) = 512 * ([] : List (List Nat)).length by simp]
  rw [hsort]
  simpa [expTable, hbc] using hwalk

/-- C2: an info block parses with `valid = true` exactly when the stored
trailing 32-bit CRC equals the CRC32 of the prefix through the sentinel,
and `get_services` raises `BlockBackendCorruptedException` the moment the
walk reads a block whose CRC does not match. -/
theorem spec_c2 :
    (∀ (block : List Nat) (ps : List (Nat × Nat)) (c : Nat) (info : BlockInfo),
      parsePieces (block.drop 72) = some (ps, c) →
      parse_meta_block block = some info →
      (info.valid = true ↔
        crc32 (block.take (72 + c)) = beU ((block.drop (72 + c)).take 4)))
    ∧ (∀ (dev : List Nat) (origin fuel pos : Nat) (acc : SvcTable)
        (info : BlockInfo),
      parse_meta_block ((dev.drop pos).take 512) = some info →
      info.valid = false →
      getServicesAux dev origin (fuel + 1) pos acc
        = some (Except.error GsError.corrupted)) := by
  constructor
  · intro block ps c info hp hpm
    rw [parse_meta_block] at hpm
    by_cases h72 : block.length < 72
    · simp [h72] at hpm
    · rw [if_neg h72, hp] at hpm
      by_cases hg : block.length < 72 + c + 4
      · simp [hg] at hpm
      · simp only [if_neg hg, Option.some.injEq] at hpm
        subst hpm
        simp [beq_iff_eq]
  · intro dev origin fuel pos acc info hp hv
    simp [getServicesAux, hp, hv]

theorem encode_drop72 (nxt : Nat) (name : List Nat) (start len : Nat) :
    (encodeInfoBlock nxt name start len).drop 72
      = packBE 8 start ++ (packBE 8 len ++ (packBE 8 0 ++ (packBE 8 0
        ++ packBE 4 (crc32 (infoBody nxt name start len))))) := by
  have hdec : encodeInfoBlock nxt name start len
      = (packBE 8 nxt ++ packPascal64 name) ++ (packBE 8 start ++ (packBE 8 len
        ++ (packBE 8 0 ++ (packBE 8 0
          ++ packBE 4 (crc32 (infoBody nxt name start len)))))) := by
    simp [encodeInfoBlock, infoBody, List.append_assoc]
  rw [hdec]
  exact List.drop_left' (by simp [packBE_length, packPascal64_length])

theorem parse_corruptBlock :
    parse_meta_block corruptBlock = some ⟨1, [98], [(3, 1)], false⟩ := by
  have hne : (crc32 (infoBody 1 [98] 3 1)
      == (crc32 (infoBody 1 [98] 3 1) + 1) % 2 ^ 32) = false := by
    have hlt := crc32_lt (infoBody 1 [98] 3 1)
    rw [beq_eq_false_iff_ne]
    intro hc
    rcases Nat.lt_or_ge (crc32 (infoBody 1 [98] 3 1) + 1) (2 ^ 32) with h | h
    · rw [Nat.mod_eq_of_lt h] at hc
      omega
    · have hm : (crc32 (infoBody 1 [98] 3 1) + 1) % 2 ^ 32 = 0 := by
        have h2 : crc32 (infoBody 1 [98] 3 1) + 1 = 2 ^ 32 := by omega
        simp [h2]
      omega
  have h := parse_infoBody_stored 1 [98] 3 1
    ((crc32 (infoBody 1 [98] 3 1) + 1) % 2 ^ 32) []
    (by simp) (by norm_num) (by norm_num) (by norm_num)
    (Nat.mod_lt _ (by norm_num)) (by simp)
  rw [corruptBlock]
  rw [show infoBody 1 [98] 3 1
        ++ packBE 4 ((crc32 (infoBody 1 [98] 3 1) + 1) % 2 ^ 32)
      = infoBody 1 [98] 3 1
        ++ (packBE 4 ((crc32 (infoBody 1 [98] 3 1) + 1) % 2 ^ 32) ++ [])
    by rw [List.append_nil]]
  rw [h, hne]

theorem spec_c2_witness :
    parsePieces ((encodeInfoBlock 0 [97] 1 1).drop 72) = some ([(1, 1)], 32)
    ∧ parse_meta_block (encodeInfoBlock 0 [97] 1 1)
        = some ⟨0, [97], [(1, 1)], true⟩
    ∧ ((true : Bool) = true ↔
        crc32 ((encodeInfoBlock 0 [97] 1 1).take (72 + 32))
          = beU (((encodeInfoBlock 0 [97] 1 1).drop (72 + 32)).take 4))
    ∧ getServicesAux corruptBlock 0 1 0 []
        = some (Except.error GsError.corrupted) := by
  have hpp : parsePieces ((encodeInfoBlock 0 [97] 1 1).drop 72)
      = some ([(1, 1)], 32) := by
    rw [encode_drop72]
    exact parsePieces_piece_sentinel 1 1 _ (by norm_num) (by norm_num) (by simp)
  have hpm : parse_meta_block (encodeInfoBlock 0 [97] 1 1)
      = some ⟨0, [97], [(1, 1)], true⟩ :=
    parse_encode_nojunk 0 [97] 1 1 (by simp) (by norm_num) (by norm_num)
      (by norm_num) (by simp)
  have hcorrupt : parse_meta_block ((corruptBlock.drop 0).take 512)
      = some ⟨1, [98], [(3, 1)], false⟩ := by
    have hlen : corruptBlock.length ≤ 512 := by
      simp [corruptBlock, infoBody_length, packBE_length]
    rw [List.drop_zero, List.take_of_length_le hlen]
    exact parse_corruptBlock
  exact ⟨hpp, hpm,
    spec_c2.1 (encodeInfoBlock 0 [97] 1 1) [(1, 1)] 32 ⟨0, [97], [(1, 1)], true⟩
      hpp hpm,
    spec_c2.2 corruptBlock 0 0 0 [] ⟨1, [98], [(3, 1)], false⟩ hcorrupt rfl⟩

/-- C3 counterexample: a 4097-byte payload is not rejected — `ljust` leaves
it unchanged and `put_stats` writes all 4097 bytes, so the write is not
"exactly HOST_SEGMENT_BYTES". -/
theorem spec_c3_counterexample :
    (put_stats 0 0 (List.replicate 4097 1)).data = List.replicate 4097 1
    ∧ (put_stats 0 0 (List.replicate 4097 1)).data.length ≠ HOST_SEGMENT_BYTES := by
  constructor
  · simp only [put_stats, ljustBytes, HOST_SEGMENT_BYTES, List.length_replicate]
    rw [show (4096 - 4097 : Nat) = 0 by omega]
    simp only [List.replicate_zero, List.append_nil]
  · simp only [put_stats, ljustBytes, HOST_SEGMENT_BYTES, List.length_append,
      List.length_replicate]
    omega

/-- C3 (amended): `put_stats` writes at
`base_offset + host_id * HOST_SEGMENT_BYTES`; a payload of at most 4096
bytes is right-padded with zero bytes to exactly 4096, while a longer
payload is written unchanged (`max |p| 4096` bytes) — it is not rejected. -/
theorem spec_c3 (baseOffset hostId : Nat) (data : List Nat) :
    (put_stats baseOffset hostId data).offset
        = baseOffset + hostId * HOST_SEGMENT_BYTES
      ∧ (put_stats baseOffset hostId data).data
        = data ++ List.replicate (HOST_SEGMENT_BYTES - data.length) 0
      ∧ (put_stats baseOffset hostId data).data.length
        = max data.length HOST_SEGMENT_BYTES := by
  refine ⟨rfl, rfl, ?_⟩
  simp only [put_stats, ljustBytes, List.length_append, List.length_replicate]
  omega

/-- C4: on a buffer of `HOST_SEGMENT_BYTES * (MAX_HOST_ID_SCAN + 1)` bytes,
`get_raw_stats_for_service_type` keeps exactly the indices
`0..MAX_HOST_ID_SCAN` whose 4096-byte chunk starts with a nonzero byte,
mapped to the full chunk; an all-zero buffer yields the empty dictionary. -/
theorem spec_c4 (maxScan : Nat) (data : List Nat)
    (h : data.length = HOST_SEGMENT_BYTES * (maxScan + 1)) :
    (∀ j chunk,
      (j, chunk) ∈ get_raw_stats_chunks HOST_SEGMENT_BYTES data ↔
        (j ≤ maxScan ∧ data.getD (j * HOST_SEGMENT_BYTES) 0 ≠ 0 ∧
          chunk = (data.drop (j * HOST_SEGMENT_BYTES)).take HOST_SEGMENT_BYTES))
    ∧ get_raw_stats_chunks HOST_SEGMENT_BYTES
        (List.replicate (HOST_SEGMENT_BYTES * (maxScan + 1)) 0) = [] := by
  have hcount : ∀ d : List Nat,
      d.length = HOST_SEGMENT_BYTES * (maxScan + 1) →
      (d.length + HOST_SEGMENT_BYTES - 1) / HOST_SEGMENT_BYTES = maxScan + 1 := by
    intro d hd
    rw [hd, HOST_SEGMENT_BYTES]
    rw [show (4096 : Nat) * (maxScan + 1) + 4096 - 1
        = 4095 + 4096 * (maxScan + 1) by omega]
    rw [Nat.add_mul_div_left 4095 (maxScan + 1) (by norm_num)]
    norm_num
  constructor
  · intro j chunk
    rw [get_raw_stats_chunks, hcount data h, List.mem_filterMap]
    constructor
    · rintro ⟨a, ha, hfa⟩
      rw [List.mem_range] at ha
      by_cases hz : data.getD (a * HOST_SEGMENT_BYTES) 0 ≠ 0
      · rw [if_pos hz, Option.some.injEq] at hfa
        obtain ⟨rfl, rfl⟩ := Prod.mk.injEq .. ▸ hfa
        exact ⟨by omega, hz, rfl⟩
      · rw [if_neg hz] at hfa
        exact absurd hfa (by simp)
    · rintro ⟨hj, hz, rfl⟩
      exact ⟨j, List.mem_range.mpr (by omega), by rw [if_pos hz]⟩
  · rw [get_raw_stats_chunks,
      hcount _ (by simp [HOST_SEGMENT_BYTES])]
    rw [List.filterMap_eq_nil_iff]
    intro a _
    have hz : (List.replicate (HOST_SEGMENT_BYTES * (maxScan + 1)) (0 : Nat)).getD
        (a * HOST_SEGMENT_BYTES) 0 = 0 := by
      rw [List.getD_eq_getElem?_getD, List.getElem?_replicate]
      split <;> rfl
    rw [if_neg (by simp [hz])]

theorem spec_c4_witness :
    (List.replicate 8192 (0 : Nat)).length = HOST_SEGMENT_BYTES * (1 + 1)
    ∧ ((∀ j chunk,
        (j, chunk) ∈ get_raw_stats_chunks HOST_SEGMENT_BYTES
            (List.replicate 8192 (0 : Nat)) ↔
          (j ≤ 1 ∧ (List.replicate 8192 (0 : Nat)).getD
              (j * HOST_SEGMENT_BYTES) 0 ≠ 0 ∧
            chunk = ((List.replicate 8192 (0 : Nat)).drop
              (j * HOST_SEGMENT_BYTES)).take HOST_SEGMENT_BYTES))
      ∧ get_raw_stats_chunks HOST_SEGMENT_BYTES
          (List.replicate (HOST_SEGMENT_BYTES * (1 + 1)) 0) = []) :=
  ⟨by simp only [List.length_replicate, HOST_SEGMENT_BYTES],
   spec_c4 1 (List.replicate 8192 0)
     (by simp only [List.length_replicate, HOST_SEGMENT_BYTES])⟩

/-- C5 counterexample: the execution that calls `put_stats` first thing
performs a slot write while `_sanlock_acquired` is still false — the claim
"no execution writes a slot while the lease is not held" fails. -/
theorem spec_c5_counterexample :
    ¬ (∀ w ∈ (brokerRun [BrokerOp.putStats 0 1 [1]]).writes,
        w.leaseHeld = true) := by
  intro h
  have hw := h ⟨put_stats 0 1 [1], false⟩ (List.mem_singleton.mpr rfl)
  exact absurd hw (by decide)

/-- C5 (amended): the broker does not enforce the lease before writing —
in every reachable state, `put_stats` issues its slot write unconditionally,
merely alongside whatever value `_sanlock_acquired` happens to have; the
lease-before-write ordering is a protocol obligation of the caller, not a
check in the broker. -/
theorem spec_c5 (ops : List BrokerOp) (baseOffset hostId : Nat)
    (data : List Nat) :
    (brokerRun (ops ++ [BrokerOp.putStats baseOffset hostId data])).writes
      = (brokerRun ops).writes
        ++ [⟨put_stats baseOffset hostId data,
             (brokerRun ops).sanlockAcquired⟩] := by
  simp [brokerRun, List.foldl_append, brokerStep]

/-! ## Lockspace acquisition traces -/

theorem traceFrom_eq (k : Nat) : ∀ attempt, traceFrom attempt k
    = (((List.range k).map fun i => [AcqEvent.call (attempt + i), AcqEvent.sleep]).flatten)
      ++ [AcqEvent.call (attempt + k)] := by
  induction k with
  | zero => intro attempt; simp [traceFrom]
  | succ k ih =>
    intro attempt
    rw [traceFrom, ih (attempt + 1), List.range_succ_eq_map]
    simp only [List.map_cons, List.map_map, List.flatten_cons, Function.comp,
      Nat.add_zero, List.cons_append, List.append_assoc]
    have harith : (fun i : Nat => [AcqEvent.call (attempt + 1 + i), AcqEvent.sleep])
        = fun i : Nat => [AcqEvent.call (attempt + (i + 1)), AcqEvent.sleep] := by
      funext i
      rw [show attempt + 1 + i = attempt + (i + 1) by omega]
    rw [show attempt + 1 + k = attempt + (k + 1) by omega, harith]
    simp only [Function.comp_def, Nat.succ_eq_add_one, List.nil_append]

theorem exhaustFrom_eq (r : Nat) : ∀ attempt, exhaustFrom attempt r
    = (((List.range r).map fun i => [AcqEvent.call (attempt + i), AcqEvent.sleep]).flatten) := by
  induction r with
  | zero => intro attempt; simp [exhaustFrom]
  | succ r ih =>
    intro attempt
    rw [exhaustFrom, ih (attempt + 1), List.range_succ_eq_map]
    simp only [List.map_cons, List.map_map, List.flatten_cons, Function.comp,
      Nat.add_zero, List.cons_append]
    have harith : (fun i : Nat => [AcqEvent.call (attempt + 1 + i), AcqEvent.sleep])
        = fun i : Nat => [AcqEvent.call (attempt + (i + 1)), AcqEvent.sleep] := by
      funext i
      rw [show attempt + 1 + i = attempt + (i + 1) by omega]
    rw [harith]
    simp only [Function.comp_def, Nat.succ_eq_add_one, List.nil_append]

theorem acqTrace_eq_traceFrom (k : Nat) : acqTrace k = traceFrom 0 k := by
  rw [acqTrace, traceFrom_eq]
  simp

theorem acqExhaustTrace_eq_exhaustFrom (r : Nat) :
    acqExhaustTrace r = exhaustFrom 0 r := by
  rw [acqExhaustTrace, exhaustFrom_eq]
  simp

theorem acquireAux_success (results : Nat → SanlockRes) (k : Nat) :
    ∀ attempt remaining, k < remaining →
    (∀ i, i < k → isTransient (results (attempt + i)) = true) →
    results (attempt + k) = SanlockRes.ok →
    acquireAux results attempt remaining
      = (traceFrom attempt k, AcqOutcome.acquired) := by
  induction k with
  | zero =>
    intro attempt remaining h0 _ hok
    cases remaining with
    | zero => omega
    | succ r =>
      rw [show attempt + 0 = attempt from rfl] at hok
      simp [acquireAux, hok, traceFrom]
  | succ k ih =>
    intro attempt remaining hk htr hok
    cases remaining with
    | zero => omega
    | succ r =>
      have h0 : isTransient (results attempt) = true := by
        have h1 := htr 0 (by omega)
        rw [show attempt + 0 = attempt from rfl] at h1
        exact h1
      have hrec := ih (attempt + 1) r (by omega)
        (fun i hi => by
          have h2 := htr (i + 1) (by omega)
          rw [show attempt + (i + 1) = attempt + 1 + i by omega] at h2
          exact h2)
        (by rw [show attempt + 1 + k = attempt + (k + 1) by omega]; exact hok)
      cases hres : results attempt
      case ok => rw [hres] at h0; simp [isTransient] at h0
      case eexist => rw [hres] at h0; simp [isTransient] at h0
      case einval => rw [hres] at h0; simp [isTransient] at h0
      case other => rw [hres] at h0; simp [isTransient] at h0
      case eintr => simp [acquireAux, hres, hrec, traceFrom]
      case einprogress => simp [acquireAux, hres, hrec, traceFrom]
      case enoent => simp [acquireAux, hres, hrec, traceFrom]

theorem acquireAux_exhaust (results : Nat → SanlockRes) :
    ∀ remaining attempt,
    (∀ i, i < remaining → isTransient (results (attempt + i)) = true) →
    acquireAux results attempt remaining
      = (exhaustFrom attempt remaining, AcqOutcome.initError) := by
  intro remaining
  induction remaining with
  | zero => intro attempt _; simp [acquireAux, exhaustFrom]
  | succ r ih =>
    intro attempt htr
    have h0 : isTransient (results attempt) = true := by
      have h1 := htr 0 (by omega)
      rw [show attempt + 0 = attempt from rfl] at h1
      exact h1
    have hrec := ih (attempt + 1)
      (fun i hi => by
        have h2 := htr (i + 1) (by omega)
        rw [show attempt + (i + 1) = attempt + 1 + i by omega] at h2
        exact h2)
    cases hres : results attempt
    case ok => rw [hres] at h0; simp [isTransient] at h0
    case eexist => rw [hres] at h0; simp [isTransient] at h0
    case einval => rw [hres] at h0; simp [isTransient] at h0
    case other => rw [hres] at h0; simp [isTransient] at h0
    case eintr => simp [acquireAux, hres, hrec, exhaustFrom]
    case einprogress => simp [acquireAux, hres, hrec, exhaustFrom]
    case enoent => simp [acquireAux, hres, hrec, exhaustFrom]

/-- C6: if the first `k < WAIT_FOR_STORAGE_RETRY` `add_lockspace` calls fail
with a transient errno (EINTR, EINPROGRESS or ENOENT) and call `k` succeeds,
`acquire_whiteboard_lock` acquires the lease (reaching
`_sanlock_acquired = True`) after exactly `k + 1` calls separated by `k`
sleeps of `WAIT_FOR_STORAGE_DELAY`; if all `WAIT_FOR_STORAGE_RETRY` attempts
fail transiently, it raises `SanlockInitializationError`. -/
theorem spec_c6 (results : Nat → SanlockRes) (retry : Nat) :
    (∀ k, k < retry →
      (∀ i, i < k → isTransient (results i) = true) →
      results k = SanlockRes.ok →
      acquire_whiteboard_lock results retry = (acqTrace k, AcqOutcome.acquired))
    ∧ ((∀ i, i < retry → isTransient (results i) = true) →
      acquire_whiteboard_lock results retry
        = (acqExhaustTrace retry, AcqOutcome.initError)) := by
  constructor
  · intro k hk htr hok
    rw [acquire_whiteboard_lock, acqTrace_eq_traceFrom]
    exact acquireAux_success results k 0 retry hk
      (fun i hi => by rw [show (0 : Nat) + i = i from Nat.zero_add i]; exact htr i hi)
      (by rw [show (0 : Nat) + k = k from Nat.zero_add k]; exact hok)
  · intro htr
    rw [acquire_whiteboard_lock, acqExhaustTrace_eq_exhaustFrom]
    exact acquireAux_exhaust results retry 0
      (fun i hi => by rw [show (0 : Nat) + i = i from Nat.zero_add i]; exact htr i hi)

theorem spec_c6_witness :
    acquire_whiteboard_lock
        (fun i => if i < 2 then SanlockRes.eintr else SanlockRes.ok) 5
      = (acqTrace 2, AcqOutcome.acquired)
    ∧ acquire_whiteboard_lock (fun _ => SanlockRes.enoent) 3
      = (acqExhaustTrace 3, AcqOutcome.initError) :=
  ⟨(spec_c6 (fun i => if i < 2 then SanlockRes.eintr else SanlockRes.ok) 5).1
     2 (by omega) (by decide) (by decide),
   (spec_c6 (fun _ => SanlockRes.enoent) 3).2 (by decide)⟩

/-! ## Unbounded chain walks -/

theorem cyclicDevice_parse0 :
    parse_meta_block ((cyclicDevice.drop 0).take 512)
      = some ⟨1, [97], [(2, 1)], true⟩ := by
  have h := layout_read (A := []) (B := [encodeInfoBlock 1 [98] 3 1])
    (b := encodeInfoBlock 1 [97] 2 1)
    (by intro x hx; simp at hx) (by rw [encodeInfoBlock_length]; omega)
  simp only [List.length_nil, Nat.mul_zero, List.nil_append] at h
  rw [show cyclicDevice
      = layout (encodeInfoBlock 1 [97] 2 1 :: [encodeInfoBlock 1 [98] 3 1])
    from rfl]
  rw [h]
  exact parse_pad_encode 1 [97] 2 1 (by simp) (by norm_num) (by norm_num)
    (by norm_num) (by simp)

theorem cyclicDevice_parse1 :
    parse_meta_block ((cyclicDevice.drop 512).take 512)
      = some ⟨1, [98], [(3, 1)], true⟩ := by
  have h := layout_read (A := [encodeInfoBlock 1 [97] 2 1]) (B := [])
    (b := encodeInfoBlock 1 [98] 3 1)
    (by intro x hx
        simp only [List.mem_singleton] at hx
        rw [hx, encodeInfoBlock_length]
        omega)
    (by rw [encodeInfoBlock_length]; omega)
  simp only [List.length_cons, List.length_nil, Nat.mul_one] at h
  rw [show cyclicDevice
      = layout ([encodeInfoBlock 1 [97] 2 1]
          ++ encodeInfoBlock 1 [98] 3 1 :: []) from rfl]
  rw [h]
  exact parse_pad_encode 1 [98] 3 1 (by simp) (by norm_num) (by norm_num)
    (by norm_num) (by simp)

theorem cyclicDevice_loop (fuel : Nat) :
    ∀ acc, getServicesAux cyclicDevice 0 fuel 512 acc = none := by
  induction fuel with
  | zero => intro acc; rfl
  | succ fuel ih =>
    intro acc
    rw [getServicesAux, cyclicDevice_parse1]
    simp only [reduceIte]
    rw [show (0 + 1 * 512 : Nat) = 512 by norm_num]
    exact ih _

/-- C7 counterexample: `get_services` is not length-bounded — on
`cyclicDevice` (whose blocks are all CRC-valid) the walk follows the cycle
`1 → 1 → ...` and exhausts every read budget, refuting "terminates after a
bounded number of block reads" for arbitrary device contents. -/
theorem spec_c7_counterexample : gsUnbounded cyclicDevice := by
  intro fuel
  cases fuel with
  | zero => rfl
  | succ fuel =>
    rw [get_services, getServicesAux, cyclicDevice_parse0]
    simp only [reduceIte]
    rw [show (0 + 1 * 512 : Nat) = 512 by norm_num]
    exact cyclicDevice_loop fuel _

/-- C7 (amended): the walk performs one read per chain step and stops only
when a block's `next` is 0; no length bound is enforced.  On the devices
`create_info_blocks` writes, the chain `1, ..., |M| - 1, 0` makes exactly
`|M|` reads suffice, but a CRC-valid cyclic `next` chain (see the
counterexample) reads without bound. -/
theorem spec_c7 (m : List (List Nat × Nat))
    (hm : m ≠ [])
    (hnm : ∀ p ∈ m, p.1.length ≤ 63)
    (hsz : ∀ p ∈ m, 0 < p.2)
    (hnd : (m.map Prod.fst).Nodup)
    (hbound : m.length + totalBlocks m ≤ 2 ^ 64) :
    ∃ svcs, get_services (layout (create_info_blocks m)) m.length
      = some (Except.ok svcs) := by
  have hperm := sortBySize_perm m
  have hslen : (sortBySize m).length = m.length := hperm.length_eq
  have hmpos : 0 < m.length := List.length_pos.mpr hm
  have hsne : sortBySize m ≠ [] := by
    intro hc
    rw [hc] at hslen
    simp at hslen
    omega
  have htbpos : 0 < totalBlocks m := totalBlocks_pos hm hsz
  have hwalk := walk_created (sortBySize m) [] [] m.length m.length
    hsne (by simpa using hslen)
    (by simp)
    (fun p hp => hnm p (hperm.mem_iff.mp hp))
    (fun p hp => hsz p (hperm.mem_iff.mp hp))
    (by simp)
    (((hperm.map Prod.fst).nodup_iff).mpr hnd)
    hmpos (by omega)
    (by rw [totalBlocks_sortBySize]; omega)
  refine ⟨expTable (sortBySize m) m.length, ?_⟩
  rw [get_services, create_info_blocks]
  simpa [hslen] using hwalk

theorem spec_c7_witness :
    ([([97], 300)] : List (List Nat × Nat)) ≠ []
    ∧ ∃ svcs, get_services (layout (create_info_blocks [([97], 300)])) 1
        = some (Except.ok svcs) :=
  ⟨by decide,
   spec_c7 [([97], 300)] (by decide) (by decide) (by decide) (by decide)
     (by decide)⟩

/-- C8: for every positive size, the file-mode branch of
`FilesystemBackend.create` fails — `f.write(0)` passes the integer `0` to
Python 2 `file.write`, which raises `TypeError`, so no file of `size` bytes
ending in a NUL byte is produced. -/
theorem spec_c8 (size : Nat) (h : 0 < size) :
    fsCreateFile size
      = Except.error "TypeError: expected a character buffer object" := by
  rw [fsCreateFile, if_pos (by omega)]
  rfl

theorem spec_c8_witness :
    (0 : Nat) < 1
    ∧ fsCreateFile 1
        = Except.error "TypeError: expected a character buffer object" :=
  ⟨by decide, spec_c8 1 (by decide)⟩

/-- C9 counterexample: with no entry ever pushed and a monotonic clock still
within the timeout, `is_host_alive` returns the `dict.get` default `""`
(the empty string), not the empty list the claim promises. -/
theorem spec_c9_counterexample :
    is_host_alive [] "metadata" 0 10 = HostsVal.pystr []
    ∧ HostsVal.pystr ([] : List Nat) ≠ HostsVal.pylist [] :=
  ⟨rfl, by decide⟩

theorem cacheLookup_cacheSet (cache : StatsCache) (svc : String)
    (v : Nat × HostsVal) : cacheLookup (cacheSet cache svc v) svc = some v := by
  induction cache with
  | nil => simp [cacheSet, cacheLookup]
  | cons e rest ih =>
    obtain ⟨k, w⟩ := e
    by_cases hk : k = svc
    · simp [cacheSet, cacheLookup, hk]
    · simp [cacheSet, cacheLookup, hk, ih]

/-- C9 (amended): `is_host_alive` returns the stored host list iff
`now - timestamp ≤ HOST_ALIVE_TIMEOUT_SECS` and the empty list when the
entry is stale; but when no entry was ever pushed the `dict.get` default is
`(0, "")`, so a fresh clock (`now ≤ timeout`) yields the empty string `""`
rather than the empty list. -/
theorem spec_c9 (cache : StatsCache) (svc : String) (now timeout : Nat) :
    (∀ ts d, cacheLookup cache svc = some (ts, d) →
      is_host_alive cache svc now timeout
        = if now - ts > timeout then HostsVal.pylist [] else d)
    ∧ (cacheLookup cache svc = none →
      is_host_alive cache svc now timeout
        = if now > timeout then HostsVal.pylist [] else HostsVal.pystr [])
    ∧ (∀ t d, is_host_alive (push_hosts_state cache svc t d) svc now timeout
        = if now - t > timeout then HostsVal.pylist [] else d) := by
  refine ⟨?_, ?_, ?_⟩
  · intro ts d hl
    rw [is_host_alive, hl]
    simp [Option.getD]
  · intro hl
    rw [is_host_alive, hl]
    simp
  · intro t d
    rw [is_host_alive, push_hosts_state, cacheLookup_cacheSet]
    simp [Option.getD]

theorem spec_c9_witness :
    is_host_alive (push_hosts_state [] "metadata" 5 (HostsVal.pylist [3]))
        "metadata" 6 100 = HostsVal.pylist [3]
    ∧ is_host_alive [] "metadata" 200 100 = HostsVal.pylist [] := by
  constructor
  · rw [(spec_c9 [] "metadata" 6 100).2.2 5 (HostsVal.pylist [3])]
    norm_num
  · rw [(spec_c9 [] "metadata" 200 100).2.1 rfl]
    norm_num

/-- C10: when slot 0 is absent from the fetched stats or holds an empty
block, `set_global_md_flag` with a known flag succeeds: starting from the
empty flag dictionary it encodes a block holding only the given flag (with
the flag's normalization applied when one exists) and writes it to
slot 0. -/
theorem spec_c10 (env : GlobalMdEnv) (stats : Nat → Option (List Nat))
    (flag : String) (value : Nat) (transformFn : Option (Nat → Nat))
    (hflag : env.globalFlags flag = some transformFn)
    (hslot : stats 0 = none ∨ stats 0 = some []) :
    set_global_md_flag env stats flag value
      = Except.ok ⟨0, env.encodeGlobal
          [(flag, match transformFn with
                  | some tf => tf value
                  | none => value)]⟩ := by
  cases transformFn with
  | some tf =>
    rcases hslot with h | h <;>
      simp [set_global_md_flag, hflag, h, mapInsert]
  | none =>
    rcases hslot with h | h <;>
      simp [set_global_md_flag, hflag, h, mapInsert]

theorem spec_c10_witness :
    c10Env.globalFlags "maintenance" = some (some fun v => min v 1)
    ∧ set_global_md_flag c10Env (fun _ => none) "maintenance" 5
        = Except.ok ⟨0, c10Env.encodeGlobal [("maintenance", min 5 1)]⟩ :=
  ⟨rfl,
   spec_c10 c10Env (fun _ => none) "maintenance" 5 (some fun v => min v 1)
     rfl (Or.inl rfl)⟩

end OvirtHA
